import Mathlib

/-
Verification of the acfun chunked-upload pipeline.

The source is a Go program that uploads local video files to a remote
media service: per file it negotiates an upload configuration
(getUploadConfig), issues a resume request, splits the file into
fragments read sequentially into buffers of size PartSize-1
(the read loop in main), uploads fragments concurrently through
Parallel workers that requeue a fragment on any failure (uploader),
waits on a sync.WaitGroup for every fragment to be acknowledged, and
then runs a three-step finalize handshake (finishUpload).

The embedding below models the byte-level data as lists of byte
values, network exchanges as explicit inputs (an oracle per call), and
the per-file control flow as a function from those inputs to a trace
of observable events.  Goroutine interleavings are serialized: the
WaitGroup guarantees that every enqueued fragment is acknowledged
exactly once before the wait returns, so the trace lists the
acknowledgment events before any event that happens after wg.Wait.
-/

namespace Acfun

/-- Byte content of a fragment; models a Go byte slice. -/
abbrev Bytes := List Nat

/-- Structure UploadConfigBlock of the source: the negotiated upload
parameters decoded from the getKSCloudToken response body.  The Go
fields are machine ints, modelled as Int. -/
structure UploadConfigBlock where
  partSize : Int
  parallel : Int
  retryCount : Int
  retryDurationSeconds : Int
deriving DecidableEq, Repr

/-- Structure UploadConfigResp of the source: the full negotiate
response body. -/
structure UploadConfigResp where
  result : Int
  host : String
  config : UploadConfigBlock
  taskId : String
  tok : String
deriving DecidableEq, Repr

/-- Structure UploadPart of the source: one fragment, its byte content
and its sequence index (field count, an int64 counted from 0 in the
read loop, hence a Nat here). -/
structure UploadPart where
  content : Bytes
  count : Nat
deriving DecidableEq, Repr

/-- Structure UploadPartResult of the source: the decoded response
body of one fragment upload. -/
structure UploadPartResult where
  result : Int
  checksum : String
  size : Int
deriving DecidableEq, Repr

/-!  The fragment reader.

The read loop of main is

    part := int64(-1)
    for {
        part++
        buf := make([]byte, config.Config.PartSize-1)
        nr, err := file.Read(buf[:])
        if nr <= 0 || err != nil { break }
        if nr > 0 {
            wg.Add(1)
            ch <- &UploadPart{content: buf[:nr], count: part}
        }
    }

Each successful read returns min c |remaining| bytes where c is the
buffer size; the loop stops at the first read that returns no bytes or
an error.  `errAt = some k` means the read call with index k (equally,
after k fragments were produced) fails with an error; `errAt = none`
means the file reads cleanly to end of file. -/

/-- Fragment production of the read loop: buffer size `c`, read-error
position `errAt`, next sequence index `idx`, unread file suffix
`data`. -/
def readLoop (c : Nat) (errAt : Option Nat) (idx : Nat) (data : Bytes) :
    List UploadPart :=
  if errAt = some idx ∨ c = 0 ∨ data = [] then []
  else ⟨data.take c, idx⟩ :: readLoop c errAt (idx + 1) (data.drop c)
termination_by data.length
decreasing_by
  rename_i h
  push_neg at h
  simp only [List.length_drop]
  have hd : data ≠ [] := h.2.2
  have hc : c ≠ 0 := h.2.1
  have : 0 < data.length := List.length_pos.mpr hd
  omega

/-- Sizes of the chunks produced when a buffer of size `c` drains `n`
bytes; a byte-count companion of `readLoop` used to state facts about
large files without materializing their content. -/
def fragSizes (c n : Nat) : List Nat :=
  if c = 0 ∨ n = 0 then []
  else if n ≤ c then [n]
  else c :: fragSizes c (n - c)
termination_by n
decreasing_by
  rename_i h h2
  push_neg at h h2
  omega

theorem readLoop_nil_left (c : Nat) (errAt : Option Nat) (idx : Nat) :
    readLoop c errAt idx [] = [] := by
  rw [readLoop]
  simp

theorem readLoop_counts (c : Nat) (errAt : Option Nat) (idx : Nat) (data : Bytes) :
    (readLoop c errAt idx data).map (fun p => p.count) =
      List.range' idx (readLoop c errAt idx data).length := by
  induction idx, data using readLoop.induct c errAt with
  | case1 idx data h =>
    rw [readLoop, if_pos h]
    simp
  | case2 idx data h ih =>
    rw [readLoop, if_neg h]
    simp only [List.map_cons, List.length_cons, List.range'_succ]
    rw [ih]

theorem readLoop_lens (c : Nat) (idx : Nat) (data : Bytes) :
    (readLoop c none idx data).map (fun p => p.content.length) =
      fragSizes c data.length := by
  induction idx, data using readLoop.induct c none with
  | case1 idx data h =>
    rw [readLoop, if_pos h]
    rcases h with h | h | h
    · simp at h
    · rw [fragSizes, if_pos (Or.inl h)]
      simp
    · subst h
      rw [fragSizes]
      simp
  | case2 idx data h ih =>
    rw [readLoop, if_neg h]
    push_neg at h
    have hc : c ≠ 0 := h.2.1
    have hd : data ≠ [] := h.2.2
    have hlen : 0 < data.length := List.length_pos.mpr hd
    simp only [List.map_cons, List.length_take, ih, List.length_drop]
    conv_rhs => rw [fragSizes]
    rw [if_neg (by omega)]
    by_cases hle : data.length ≤ c
    · rw [if_pos hle, Nat.sub_eq_zero_of_le hle, fragSizes]
      have hmin : c ⊓ data.length = data.length := by omega
      simp [hmin]
    · rw [if_neg hle]
      have hmin : c ⊓ data.length = c := by omega
      rw [hmin]

theorem readLoop_flatten (c : Nat) (idx : Nat) (data : Bytes) (hc : c ≠ 0) :
    ((readLoop c none idx data).map (fun p => p.content)).flatten = data := by
  induction idx, data using readLoop.induct c none with
  | case1 idx data h =>
    rcases h with h | h | h
    · simp at h
    · exact absurd h hc
    · subst h
      rw [readLoop]
      simp
  | case2 idx data h ih =>
    rw [readLoop, if_neg h]
    simp only [List.map_cons, List.flatten_cons, ih]
    exact List.take_append_drop c data

theorem fragSizes_le (c n : Nat) : ∀ x ∈ fragSizes c n, x ≤ c := by
  induction n using fragSizes.induct c with
  | case1 n h =>
    rw [fragSizes, if_pos h]
    simp
  | case2 n h hle =>
    rw [fragSizes, if_neg h, if_pos hle]
    simpa using hle
  | case3 n h hle ih =>
    rw [fragSizes, if_neg h, if_neg hle]
    intro x hx
    rcases List.mem_cons.mp hx with hx | hx
    · omega
    · exact ih x hx

theorem fragSizes_dropLast (c n : Nat) :
    ∀ x ∈ (fragSizes c n).dropLast, x = c := by
  induction n using fragSizes.induct c with
  | case1 n h =>
    rw [fragSizes, if_pos h]
    simp
  | case2 n h hle =>
    rw [fragSizes, if_neg h, if_pos hle]
    simp
  | case3 n h hle ih =>
    rw [fragSizes, if_neg h, if_neg hle]
    intro x hx
    have hne : fragSizes c (n - c) ≠ [] := by
      push_neg at h
      rw [fragSizes, if_neg (by omega)]
      split <;> simp
    rw [List.dropLast_cons_of_ne_nil hne] at hx
    rcases List.mem_cons.mp hx with hx | hx
    · exact hx
    · exact ih x hx

theorem fragSizes_sum (c n : Nat) (hc : c ≠ 0) : (fragSizes c n).sum = n := by
  induction n using fragSizes.induct c with
  | case1 n h =>
    rcases h with h | h
    · exact absurd h hc
    · rw [fragSizes, if_pos (Or.inr h), h]
      simp
  | case2 n h hle =>
    rw [fragSizes, if_neg h, if_pos hle]
    simp
  | case3 n h hle ih =>
    rw [fragSizes, if_neg h, if_neg hle]
    push_neg at h hle
    simp only [List.sum_cons, ih]
    omega

/-- C1: the fragment reader, given per-read buffer size S and a file
that reads cleanly to end of file, produces fragments whose sequence
indices are 0-based, strictly increasing and gap-free (the index list
is exactly range n), every fragment except possibly the last has
exactly S bytes, every fragment (in particular the last) has at most S
bytes, and concatenating the fragment contents in sequence-index order
reproduces the original file byte-for-byte. -/
theorem fragmentReader_spec (S : Nat) (data : Bytes) (hS : 0 < S) :
    ((readLoop S none 0 data).map (fun p => p.count) =
        List.range (readLoop S none 0 data).length)
    ∧ (∀ p ∈ (readLoop S none 0 data).dropLast, p.content.length = S)
    ∧ (∀ p ∈ readLoop S none 0 data, p.content.length ≤ S)
    ∧ ((readLoop S none 0 data).map (fun p => p.content)).flatten = data := by
  refine ⟨?_, ?_, ?_, ?_⟩
  · rw [List.range_eq_range']
    exact readLoop_counts S none 0 data
  · intro p hp
    have hmem : p.content.length ∈
        ((readLoop S none 0 data).map (fun p => p.content.length)).dropLast := by
      rw [← List.map_dropLast]
      exact List.mem_map_of_mem _ hp
    rw [readLoop_lens] at hmem
    exact fragSizes_dropLast S data.length _ hmem
  · intro p hp
    have hmem : p.content.length ∈
        (readLoop S none 0 data).map (fun p => p.content.length) :=
      List.mem_map_of_mem _ hp
    rw [readLoop_lens] at hmem
    exact fragSizes_le S data.length _ hmem
  · exact readLoop_flatten S 0 data (Nat.pos_iff_ne_zero.mp hS)

theorem fragmentReader_spec_witness :
    0 < 2
    ∧ (((readLoop 2 none 0 [7, 8, 9]).map (fun p => p.count) =
          List.range (readLoop 2 none 0 [7, 8, 9]).length)
    ∧ (∀ p ∈ (readLoop 2 none 0 [7, 8, 9]).dropLast, p.content.length = 2)
    ∧ (∀ p ∈ readLoop 2 none 0 [7, 8, 9], p.content.length ≤ 2)
    ∧ ((readLoop 2 none 0 [7, 8, 9]).map (fun p => p.content)).flatten
        = [7, 8, 9]) :=
  ⟨by decide, fragmentReader_spec 2 [7, 8, 9] (by decide)⟩

/-!  The fragment upload worker.

Function uploader of the source loops over the channel; per received
item it POSTs the fragment bytes and then checks, in order:

    resp, err := client.Do(req)             -- transport error
    body, err := ioutil.ReadAll(resp.Body)  -- body read error
    err = json.Unmarshal(body, result)      -- decode error
    if result.Result != 1 || result.Size != int64(len(item.content))

On any of these failures it sends the same item pointer back into the
channel and continues; only when all checks pass does it report
progress (bar.Add(len(item.content))) and decrement the WaitGroup
(wg.Done()).  One attempt is a function of the item and of the remote
response. -/

/-- Outcome of one fragment-upload HTTP exchange as the worker sees
it. -/
inductive UploadResponse where
  | transportError
  | bodyReadError
  | decodeError
  | ok (r : UploadPartResult)
deriving DecidableEq, Repr

/-- Result of one worker attempt: an acknowledgment carrying the
progress increment and the WaitGroup decrement, or a requeue of an
item (the channel send in the failure branches). -/
inductive AttemptOutcome where
  | ack (progressBytes : Nat)
  | requeue (item : UploadPart)
deriving DecidableEq, Repr

/-- One iteration of uploader for a received item, as a function of
the remote response. -/
def uploaderStep (item : UploadPart) (resp : UploadResponse) : AttemptOutcome :=
  match resp with
  | .transportError => .requeue item
  | .bodyReadError => .requeue item
  | .decodeError => .requeue item
  | .ok r =>
      if r.result ≠ 1 ∨ r.size ≠ (item.content.length : Int) then .requeue item
      else .ack item.content.length

/-- Repeated attempts for one fragment against a stream of responses:
the worker keeps requeueing and retrying until an attempt succeeds; if
the stream is exhausted without a success the fragment is still
queued, unchanged. -/
def uploaderRun (item : UploadPart) : List UploadResponse → AttemptOutcome
  | [] => .requeue item
  | resp :: rest =>
      match uploaderStep item resp with
      | .ack n => .ack n
      | .requeue it => uploaderRun it rest

/-- C2: one worker attempt either acknowledges the fragment, reporting
exactly its byte length as progress and releasing one WaitGroup unit,
and this happens precisely when the response decodes with a received
size equal to the fragment byte length and a positive (namely 1)
result code; or it re-enqueues the very same fragment (identical
content and sequence index) with no progress, no decrement and no
error surfaced.  Moreover retries are unbounded: after any number of
failed attempts the identical fragment is still queued. -/
theorem uploader_spec :
    ∀ (item : UploadPart) (resp : UploadResponse) (n : Nat),
      ((uploaderStep item resp = .ack item.content.length
          ∧ ∃ r, resp = .ok r ∧ 0 < r.result
              ∧ r.size = (item.content.length : Int))
        ∨ (uploaderStep item resp = .requeue item
          ∧ ¬ ∃ r, resp = .ok r ∧ r.result = 1
              ∧ r.size = (item.content.length : Int)))
      ∧ uploaderRun item (List.replicate n UploadResponse.transportError)
          = .requeue item := by
  intro item resp n
  constructor
  · cases resp with
    | transportError => exact Or.inr ⟨rfl, by simp [uploaderStep]⟩
    | bodyReadError => exact Or.inr ⟨rfl, by simp [uploaderStep]⟩
    | decodeError => exact Or.inr ⟨rfl, by simp [uploaderStep]⟩
    | ok r =>
      by_cases h : r.result ≠ 1 ∨ r.size ≠ (item.content.length : Int)
      · refine Or.inr ⟨by simp [uploaderStep, h], ?_⟩
        rintro ⟨r', hr', h1, h2⟩
        cases hr'
        tauto
      · push_neg at h
        refine Or.inl ⟨by simp [uploaderStep, h.1, h.2], r, rfl, by omega, h.2⟩
  · induction n with
    | zero => rfl
    | succ k ih => simpa [List.replicate_succ, uploaderRun, uploaderStep] using ih

/-!  Completion accounting.

Per file, main increments the WaitGroup once per fragment right
before the fragment is first sent into the channel (wg.Add(1) in the
read loop), and a worker decrements it exactly when an upload attempt
for some queued fragment succeeds (wg.Done()).  A failed attempt puts
the same fragment back into the queue and touches nothing else.  The
state below abstracts one session: `produced` counts fragments
enqueued so far (with at most `total` fragments in the file),
`pending` holds the indices whose unique live copy is in the channel
or held by a worker, `acked` the indices acknowledged at least once,
and `counter` the WaitGroup value. -/

/-- Completion-accounting state of one upload session. -/
structure SessState where
  produced : Nat
  pending : Finset Nat
  acked : Finset Nat
  counter : Nat
deriving DecidableEq

/-- Transitions of the completion accounting for a file of `total`
fragments: produce = wg.Add(1) plus first enqueue of the next
fragment; ackOk = successful attempt, wg.Done() plus progress; retry =
failed attempt, the worker returns the identical fragment to the
queue. -/
inductive SessStep (total : Nat) : SessState → SessState → Prop
  | produce (s : SessState) (h : s.produced < total) :
      SessStep total s
        ⟨s.produced + 1, insert s.produced s.pending, s.acked, s.counter + 1⟩
  | ackOk (s : SessState) (i : Nat) (h : i ∈ s.pending) :
      SessStep total s
        ⟨s.produced, s.pending.erase i, insert i s.acked, s.counter - 1⟩
  | retry (s : SessState) (i : Nat) (h : i ∈ s.pending) :
      SessStep total s s

/-- Initial session state: nothing produced, WaitGroup at zero. -/
def initSess : SessState := ⟨0, ∅, ∅, 0⟩

/-- States reachable in a session of `total` fragments. -/
def ReachableSess (total : Nat) (s : SessState) : Prop :=
  Relation.ReflTransGen (SessStep total) initSess s

/-- Session invariant: the WaitGroup equals the number of in-flight
fragments, no index is both in flight and acknowledged, and together
the in-flight and acknowledged indices are exactly the produced
ones. -/
def SessInv (s : SessState) : Prop :=
  s.counter = s.pending.card
    ∧ Disjoint s.pending s.acked
    ∧ s.pending ∪ s.acked = Finset.range s.produced

theorem sessInv_init : SessInv initSess := by
  refine ⟨rfl, Finset.disjoint_empty_left _, ?_⟩
  simp [initSess]

theorem sessInv_step {total : Nat} {s t : SessState} (hs : SessInv s)
    (h : SessStep total s t) : SessInv t := by
  obtain ⟨hc, hd, hu⟩ := hs
  cases h with
  | produce h =>
    have hnp : s.produced ∉ s.pending := by
      intro hmem
      have : s.produced ∈ Finset.range s.produced := by
        rw [← hu]
        exact Finset.mem_union_left _ hmem
      simp at this
    have hna : s.produced ∉ s.acked := by
      intro hmem
      have : s.produced ∈ Finset.range s.produced := by
        rw [← hu]
        exact Finset.mem_union_right _ hmem
      simp at this
    refine ⟨?_, ?_, ?_⟩
    · dsimp only
      rw [Finset.card_insert_of_not_mem hnp, hc]
    · dsimp only
      rw [Finset.disjoint_insert_left]
      exact ⟨hna, hd⟩
    · dsimp only
      rw [Finset.insert_union, hu, Finset.range_succ]
  | ackOk i h =>
    refine ⟨?_, ?_, ?_⟩
    · dsimp only
      rw [Finset.card_erase_of_mem h, hc]
    · dsimp only
      rw [Finset.disjoint_insert_right]
      exact ⟨Finset.not_mem_erase i _, Finset.disjoint_of_subset_left
        (Finset.erase_subset i s.pending) hd⟩
    · dsimp only
      rw [Finset.union_insert, ← Finset.insert_union, Finset.insert_erase h, hu]
  | retry i h => exact ⟨hc, hd, hu⟩

theorem sessInv_reachable {total : Nat} {s : SessState}
    (h : ReachableSess total s) : SessInv s := by
  induction h with
  | refl => exact sessInv_init
  | tail hsteps hstep ih => exact sessInv_step ih hstep

/-- C3: in every reachable state of a session whose file has `total`
fragments (each incrementing the counter once at its first enqueue and
decrementing it once per successful acknowledgment), once all `total`
fragments are produced the counter is zero exactly when every index in
[0, total) has been acknowledged at least once; and an acknowledged
fragment is never in flight again, so no fragment can be counted
complete a second time. -/
theorem completionCounter_spec (total : Nat) (s : SessState)
    (h : ReachableSess total s) :
    (s.produced = total → (s.counter = 0 ↔ ∀ i < total, i ∈ s.acked))
    ∧ ∀ i ∈ s.acked, i ∉ s.pending := by
  obtain ⟨hc, hd, hu⟩ := sessInv_reachable h
  constructor
  · intro hp
    subst hp
    constructor
    · intro h0
      have hpe : s.pending = ∅ := Finset.card_eq_zero.mp (h0 ▸ hc.symm)
      intro i hi
      have : i ∈ s.pending ∪ s.acked := by
        rw [hu]
        exact Finset.mem_range.mpr hi
      rw [hpe] at this
      simpa using this
    · intro hall
      have hsub : s.pending ⊆ s.acked := by
        intro i hi
        have : i ∈ Finset.range s.produced := by
          rw [← hu]
          exact Finset.mem_union_left _ hi
        exact hall i (Finset.mem_range.mp this)
      have hpe : s.pending = ∅ := by
        rw [← Finset.subset_empty]
        intro i hi
        exact absurd (hsub hi) (Finset.disjoint_left.mp hd hi)
      rw [hc, hpe]
      simp
  · intro i hia hip
    exact Finset.disjoint_left.mp hd hip hia

theorem completionCounter_spec_witness :
    ((SessState.mk 1 (Finset.erase {0} 0) (insert 0 ∅) 0).produced = 1 →
      (((SessState.mk 1 (Finset.erase {0} 0) (insert 0 ∅) 0).counter = 0)
        ↔ ∀ i < 1, i ∈ (SessState.mk 1 (Finset.erase {0} 0) (insert 0 ∅) 0).acked))
    ∧ ∀ i ∈ (SessState.mk 1 (Finset.erase {0} 0) (insert 0 ∅) 0).acked,
        i ∉ (SessState.mk 1 (Finset.erase {0} 0) (insert 0 ∅) 0).pending := by
  have h1 : SessStep 1 initSess ⟨1, insert 0 ∅, ∅, 1⟩ :=
    SessStep.produce initSess (by simp [initSess])
  have h2 : SessStep 1 ⟨1, insert 0 ∅, ∅, 1⟩
      ⟨1, Finset.erase (insert 0 ∅) 0, insert 0 ∅, 0⟩ :=
    SessStep.ackOk ⟨1, insert 0 ∅, ∅, 1⟩ 0 (by simp)
  have hr : ReachableSess 1 ⟨1, Finset.erase {0} 0, insert 0 ∅, 0⟩ :=
    Relation.ReflTransGen.tail (Relation.ReflTransGen.single h1) h2
  exact completionCounter_spec 1 _ hr

/-!  The per-file orchestrator.

Main processes the positional file arguments sequentially.  Per file:
print the local name, os.Stat, getUploadConfig (one POST whose body is
json-decoded into UploadConfigResp; the decoded result code is never
inspected), a GET resume request, os.Open, start Parallel workers,
run the read loop feeding the channel, wg.Wait, and finishUpload.
Every error of stat, negotiate, resume, open or finalize prints a
message and continues with the next file.  The observable behaviour is
modelled as a trace of events; external outcomes (stat, network
exchanges, read errors) are explicit inputs. -/

/-- Observable events of one run. -/
inductive Event where
  | printLocal
  | statReq
  | statFail
  | negotiateReq
  | negotiateFail
  | resumeReq (tok : String)
  | resumeFail
  | fileOpen
  | openFail
  | workerStart
  | readFrag (idx len : Nat)
  | ackFrag (idx len : Nat)
  | finComplete (count : Nat) (tok : String)
  | finCreateVideo (task : String)
  | finUploadFinish (task : String)
  | finishFail
  | printMissing
  | printUsage
deriving DecidableEq, Repr

/-- Wire-level outcome of the negotiate exchange: none = transport or
body-read failure of request(); some none = json.Unmarshal failure;
some (some c) = body decoded into c. -/
abbrev NegotiateWire := Option (Option UploadConfigResp)

/-- Function getUploadConfig of the source: returns an error exactly
when the POST fails or the body does not decode; a decoded body is
returned as-is, its result code unchecked. -/
def getUploadConfig (w : NegotiateWire) : Option UploadConfigResp :=
  match w with
  | none => none
  | some none => none
  | some (some c) => some c

/-- Function finishUpload of the source: POST uploadComplete with the
final fragment counter value, then POST createVideo, then POST
uploadFinish, returning (and skipping the rest) at the first failing
call.  f1 f2 f3 are the outcomes of the three exchanges. -/
def finishUpload (tok : String) (part : Nat) (task : String)
    (f1 f2 f3 : Bool) : List Event :=
  Event.finComplete part tok ::
    if f1 = false then [Event.finishFail] else
      Event.finCreateVideo task ::
        if f2 = false then [Event.finishFail] else
          Event.finUploadFinish task ::
            if f3 = false then [Event.finishFail] else []

/-- External outcomes for one file of the batch: the stat result, the
file bytes, the position of a mid-file read error if any, the
negotiate wire outcome, the resume and open outcomes and the three
finalize outcomes. -/
structure FileInput where
  statOk : Bool
  data : Bytes
  readErrAfter : Option Nat
  negotiate : NegotiateWire
  resumeOk : Bool
  openOk : Bool
  fin1 : Bool
  fin2 : Bool
  fin3 : Bool
deriving DecidableEq, Repr

/-- One iteration of the file loop of main.  The fragment buffer size
is PartSize-1 (make([]byte, config.Config.PartSize-1)); Go panics on a
negative make length, so the model is meaningful for partSize ≥ 1.
Worker goroutines are started for i < Parallel.  wg.Wait returns once
every enqueued fragment has been acknowledged exactly once, so the
acknowledgment events all precede everything that follows the wait;
finishUpload receives the final value of the loop counter part, which
equals the number of fragments produced. -/
def processFile (inp : FileInput) : List Event :=
  Event.printLocal :: Event.statReq ::
    if inp.statOk = false then [Event.statFail] else
      Event.negotiateReq ::
        match getUploadConfig inp.negotiate with
        | none => [Event.negotiateFail]
        | some cfg =>
            Event.resumeReq cfg.tok ::
              if inp.resumeOk = false then [Event.resumeFail] else
                Event.fileOpen ::
                  if inp.openOk = false then [Event.openFail] else
                    let frags := readLoop (cfg.config.partSize - 1).toNat
                      inp.readErrAfter 0 inp.data
                    List.replicate cfg.config.parallel.toNat Event.workerStart
                      ++ frags.map (fun p => Event.readFrag p.count p.content.length)
                      ++ frags.map (fun p => Event.ackFrag p.count p.content.length)
                      ++ finishUpload cfg.tok frags.length cfg.taskId
                          inp.fin1 inp.fin2 inp.fin3

/-- Main: parse flags, refuse to run without token or uid, otherwise
process the files one after the other. -/
def runMain (tok uid : String) (files : List FileInput) : List Event :=
  if tok = "" ∨ uid = "" then [Event.printMissing, Event.printUsage]
  else (files.map processFile).flatten

/-!  Trace predicates. -/

/-- Progress-report events (bar.Add in uploader). -/
def isAck : Event → Bool
  | .ackFrag _ _ => true
  | _ => false

/-- Fragment-production events of the read loop. -/
def isRead : Event → Bool
  | .readFrag _ _ => true
  | _ => false

/-- Worker goroutine starts. -/
def isWorker : Event → Bool
  | .workerStart => true
  | _ => false

/-- Any of the three finalize network calls. -/
def isFinStep : Event → Bool
  | .finComplete _ _ => true
  | .finCreateVideo _ => true
  | .finUploadFinish _ => true
  | _ => false

/-- The first finalize call (uploadComplete). -/
def isFinStart : Event → Bool
  | .finComplete _ _ => true
  | _ => false

/-- Network exchanges of any kind. -/
def isNetwork : Event → Bool
  | .negotiateReq => true
  | .resumeReq _ => true
  | .ackFrag _ _ => true
  | .finComplete _ _ => true
  | .finCreateVideo _ => true
  | .finUploadFinish _ => true
  | _ => false

/-- Local file-system accesses (stat, open, read). -/
def isFileAccess : Event → Bool
  | .statReq => true
  | .fileOpen => true
  | .readFrag _ _ => true
  | _ => false

/-- Number of events of a trace satisfying p. -/
def countP (p : Event → Bool) (tr : List Event) : Nat := (tr.filter p).length

/-- Byte lengths announced by the fragment-production events. -/
def readLens (tr : List Event) : List Nat :=
  tr.filterMap fun e =>
    match e with
    | .readFrag _ n => some n
    | _ => none

/-- Total bytes reported to the progress bar. -/
def ackTotal (tr : List Event) : Nat :=
  (tr.filterMap fun e =>
    match e with
    | .ackFrag _ n => some n
    | _ => none).sum

theorem countP_append (p : Event → Bool) (a b : List Event) :
    countP p (a ++ b) = countP p a + countP p b := by
  simp [countP, List.filter_append]

theorem countP_map_none (p : Event → Bool) (f : UploadPart → Event)
    (h : ∀ x, p (f x) = false) (l : List UploadPart) :
    countP p (l.map f) = 0 := by
  induction l with
  | nil => rfl
  | cons x xs ih =>
    simp only [List.map_cons, countP, List.filter_cons, h x]
    exact ih

theorem countP_map_all (p : Event → Bool) (f : UploadPart → Event)
    (h : ∀ x, p (f x) = true) (l : List UploadPart) :
    countP p (l.map f) = l.length := by
  induction l with
  | nil => rfl
  | cons x xs ih =>
    simp only [List.map_cons, countP, List.filter_cons, h x, if_true,
      List.length_cons]
    rw [← ih]
    rfl

theorem countP_replicate_none (p : Event → Bool) (e : Event)
    (h : p e = false) (n : Nat) :
    countP p (List.replicate n e) = 0 := by
  induction n with
  | zero => rfl
  | succ k ih =>
    simp only [List.replicate_succ, countP, List.filter_cons, h]
    exact ih

theorem filterMap_map_none {β : Type} (g : Event → Option β)
    (f : UploadPart → Event) (h : ∀ x, g (f x) = none) (l : List UploadPart) :
    (l.map f).filterMap g = [] := by
  induction l with
  | nil => rfl
  | cons x xs ih => simp only [List.map_cons, List.filterMap_cons, h x, ih]

theorem filterMap_replicate_none {β : Type} (g : Event → Option β) (e : Event)
    (h : g e = none) (n : Nat) :
    (List.replicate n e).filterMap g = [] := by
  induction n with
  | zero => rfl
  | succ k ih => simp only [List.replicate_succ, List.filterMap_cons, h, ih]

/-- Events of one file before wg.Wait returns: the fixed prefix, the
worker starts, one production event and one acknowledgment event per
fragment. -/
def preTrace (cfg : UploadConfigResp) (frags : List UploadPart) : List Event :=
  [Event.printLocal, Event.statReq, Event.negotiateReq,
      Event.resumeReq cfg.tok, Event.fileOpen]
    ++ List.replicate cfg.config.parallel.toNat Event.workerStart
    ++ frags.map (fun p => Event.readFrag p.count p.content.length)
    ++ frags.map (fun p => Event.ackFrag p.count p.content.length)

theorem processFile_success (inp : FileInput) (cfg : UploadConfigResp)
    (hstat : inp.statOk = true) (hneg : inp.negotiate = some (some cfg))
    (hres : inp.resumeOk = true) (hopen : inp.openOk = true) :
    processFile inp =
      preTrace cfg
          (readLoop (cfg.config.partSize - 1).toNat inp.readErrAfter 0 inp.data)
        ++ finishUpload cfg.tok
            (readLoop (cfg.config.partSize - 1).toNat inp.readErrAfter 0
              inp.data).length
            cfg.taskId inp.fin1 inp.fin2 inp.fin3 := by
  rw [processFile, hstat, hneg, hres, hopen]
  simp [getUploadConfig, preTrace]

theorem countP_preTrace_isFinStep (cfg : UploadConfigResp)
    (frags : List UploadPart) : countP isFinStep (preTrace cfg frags) = 0 := by
  simp only [preTrace, countP_append]
  rw [countP_replicate_none _ _ rfl, countP_map_none _ _ (fun _ => rfl),
    countP_map_none _ _ (fun _ => rfl)]
  rfl

theorem countP_preTrace_isAck (cfg : UploadConfigResp)
    (frags : List UploadPart) :
    countP isAck (preTrace cfg frags) = frags.length := by
  simp only [preTrace, countP_append]
  rw [countP_replicate_none _ _ rfl,
    countP_map_none isAck (fun p => Event.readFrag p.count p.content.length)
      (fun _ => rfl),
    countP_map_all isAck (fun p => Event.ackFrag p.count p.content.length)
      (fun _ => rfl),
    show countP isAck [Event.printLocal, Event.statReq, Event.negotiateReq,
      Event.resumeReq cfg.tok, Event.fileOpen] = 0 from rfl]
  omega

theorem countP_preTrace_isRead (cfg : UploadConfigResp)
    (frags : List UploadPart) :
    countP isRead (preTrace cfg frags) = frags.length := by
  simp only [preTrace, countP_append]
  rw [countP_replicate_none _ _ rfl,
    countP_map_all isRead (fun p => Event.readFrag p.count p.content.length)
      (fun _ => rfl),
    countP_map_none isRead (fun p => Event.ackFrag p.count p.content.length)
      (fun _ => rfl),
    show countP isRead [Event.printLocal, Event.statReq, Event.negotiateReq,
      Event.resumeReq cfg.tok, Event.fileOpen] = 0 from rfl]
  omega

theorem countP_replicate_all (p : Event → Bool) (e : Event)
    (h : p e = true) (n : Nat) :
    countP p (List.replicate n e) = n := by
  induction n with
  | zero => rfl
  | succ k ih =>
    simp only [List.replicate_succ, countP, List.filter_cons, h, if_true,
      List.length_cons]
    exact congrArg (· + 1) ih

theorem countP_preTrace_isWorker (cfg : UploadConfigResp)
    (frags : List UploadPart) :
    countP isWorker (preTrace cfg frags) = cfg.config.parallel.toNat := by
  simp only [preTrace, countP_append]
  rw [countP_replicate_all _ _ rfl,
    countP_map_none isWorker (fun p => Event.readFrag p.count p.content.length)
      (fun _ => rfl),
    countP_map_none isWorker (fun p => Event.ackFrag p.count p.content.length)
      (fun _ => rfl),
    show countP isWorker [Event.printLocal, Event.statReq, Event.negotiateReq,
      Event.resumeReq cfg.tok, Event.fileOpen] = 0 from rfl]
  omega

theorem countP_finishUpload_isAck (tok : String) (part : Nat) (task : String)
    (f1 f2 f3 : Bool) :
    countP isAck (finishUpload tok part task f1 f2 f3) = 0 := by
  cases f1 <;> cases f2 <;> cases f3 <;> rfl

theorem countP_finishUpload_isRead (tok : String) (part : Nat) (task : String)
    (f1 f2 f3 : Bool) :
    countP isRead (finishUpload tok part task f1 f2 f3) = 0 := by
  cases f1 <;> cases f2 <;> cases f3 <;> rfl

theorem countP_finishUpload_isWorker (tok : String) (part : Nat) (task : String)
    (f1 f2 f3 : Bool) :
    countP isWorker (finishUpload tok part task f1 f2 f3) = 0 := by
  cases f1 <;> cases f2 <;> cases f3 <;> rfl

theorem countP_finishUpload_isFinStart (tok : String) (part : Nat)
    (task : String) (f1 f2 f3 : Bool) :
    countP isFinStart (finishUpload tok part task f1 f2 f3) = 1 := by
  cases f1 <;> cases f2 <;> cases f3 <;> rfl

theorem readLens_preTrace (cfg : UploadConfigResp) (frags : List UploadPart) :
    readLens (preTrace cfg frags) = frags.map (fun p => p.content.length) := by
  simp only [preTrace, readLens, List.filterMap_append]
  rw [filterMap_replicate_none _ _ rfl,
    filterMap_map_none _ (fun p => Event.ackFrag p.count p.content.length)
      (fun _ => rfl)]
  have hmap : ∀ l : List UploadPart,
      (l.map fun p => Event.readFrag p.count p.content.length).filterMap
        (fun e => match e with | .readFrag _ n => some n | _ => none) =
        l.map fun p => p.content.length := by
    intro l
    induction l with
    | nil => rfl
    | cons x xs ih => simp only [List.map_cons, List.filterMap_cons, ih]
  rw [hmap]
  simp

theorem readLens_finishUpload (tok : String) (part : Nat) (task : String)
    (f1 f2 f3 : Bool) :
    readLens (finishUpload tok part task f1 f2 f3) = [] := by
  cases f1 <;> cases f2 <;> cases f3 <;> rfl

theorem ackTotal_preTrace (cfg : UploadConfigResp) (frags : List UploadPart) :
    ackTotal (preTrace cfg frags) =
      (frags.map (fun p => p.content.length)).sum := by
  simp only [preTrace, ackTotal, List.filterMap_append]
  rw [filterMap_replicate_none _ _ rfl,
    filterMap_map_none _ (fun p => Event.readFrag p.count p.content.length)
      (fun _ => rfl)]
  have hmap : ∀ l : List UploadPart,
      (l.map fun p => Event.ackFrag p.count p.content.length).filterMap
        (fun e => match e with | .ackFrag _ n => some n | _ => none) =
        l.map fun p => p.content.length := by
    intro l
    induction l with
    | nil => rfl
    | cons x xs ih => simp only [List.map_cons, List.filterMap_cons, ih]
  rw [hmap]
  simp

theorem ackTotal_finishUpload (tok : String) (part : Nat) (task : String)
    (f1 f2 f3 : Bool) :
    ackTotal (finishUpload tok part task f1 f2 f3) = 0 := by
  cases f1 <;> cases f2 <;> cases f3 <;> rfl

theorem ackTotal_append (a b : List Event) :
    ackTotal (a ++ b) = ackTotal a + ackTotal b := by
  simp [ackTotal, List.filterMap_append]

theorem readLens_append (a b : List Event) :
    readLens (a ++ b) = readLens a ++ readLens b := by
  simp [readLens, List.filterMap_append]

/-- C10: when the token or the uid flag is the empty string, the
program prints the missing-credential message and the usage text and
returns before the file loop: no file is stat-ed, opened or read and
no network request is issued, however many file paths were
supplied. -/
theorem missingCredentials_spec (tok uid : String) (files : List FileInput)
    (h : tok = "" ∨ uid = "") :
    runMain tok uid files = [Event.printMissing, Event.printUsage]
    ∧ countP isNetwork (runMain tok uid files) = 0
    ∧ countP isFileAccess (runMain tok uid files) = 0 := by
  rw [runMain, if_pos h]
  exact ⟨rfl, rfl, rfl⟩

theorem missingCredentials_spec_witness :
    ("" = "" ∨ "u" = "")
    ∧ (runMain "" "u" [⟨true, [1, 2, 3], none,
          some (some ⟨1, "h", ⟨3, 1, 0, 0⟩, "task", "tk"⟩),
          true, true, true, true, true⟩]
        = [Event.printMissing, Event.printUsage]
      ∧ countP isNetwork (runMain "" "u" [⟨true, [1, 2, 3], none,
          some (some ⟨1, "h", ⟨3, 1, 0, 0⟩, "task", "tk"⟩),
          true, true, true, true, true⟩]) = 0
      ∧ countP isFileAccess (runMain "" "u" [⟨true, [1, 2, 3], none,
          some (some ⟨1, "h", ⟨3, 1, 0, 0⟩, "task", "tk"⟩),
          true, true, true, true, true⟩]) = 0) :=
  ⟨Or.inl rfl, missingCredentials_spec "" "u"
    [⟨true, [1, 2, 3], none, some (some ⟨1, "h", ⟨3, 1, 0, 0⟩, "task", "tk"⟩),
      true, true, true, true, true⟩] (Or.inl rfl)⟩

/-- C8: for a zero-byte source file (with negotiation, resume and open
succeeding) no fragment is produced or enqueued, so the WaitGroup is
never incremented and the wait returns at once, no progress is
reported, and the finalize handshake is still invoked, with fragment
count 0: finalize is not conditional on a fragment existing. -/
theorem emptyFile_spec (inp : FileInput) (cfg : UploadConfigResp)
    (hdata : inp.data = []) (hstat : inp.statOk = true)
    (hneg : inp.negotiate = some (some cfg)) (hres : inp.resumeOk = true)
    (hopen : inp.openOk = true) :
    countP isRead (processFile inp) = 0
    ∧ countP isAck (processFile inp) = 0
    ∧ Event.finComplete 0 cfg.tok ∈ processFile inp := by
  rw [processFile_success inp cfg hstat hneg hres hopen, hdata,
    readLoop_nil_left]
  refine ⟨?_, ?_, ?_⟩
  · rw [countP_append, countP_preTrace_isRead, countP_finishUpload_isRead]
    simp
  · rw [countP_append, countP_preTrace_isAck, countP_finishUpload_isAck]
    simp
  · apply List.mem_append_right
    rw [finishUpload]
    exact List.mem_cons_self _ _

theorem emptyFile_spec_witness :
    ((⟨true, [], none, some (some ⟨1, "h", ⟨3, 1, 0, 0⟩, "task", "tk"⟩),
        true, true, true, true, true⟩ : FileInput).data = [])
    ∧ (countP isRead (processFile ⟨true, [], none,
          some (some ⟨1, "h", ⟨3, 1, 0, 0⟩, "task", "tk"⟩),
          true, true, true, true, true⟩) = 0
      ∧ countP isAck (processFile ⟨true, [], none,
          some (some ⟨1, "h", ⟨3, 1, 0, 0⟩, "task", "tk"⟩),
          true, true, true, true, true⟩) = 0
      ∧ Event.finComplete 0 "tk" ∈ processFile ⟨true, [], none,
          some (some ⟨1, "h", ⟨3, 1, 0, 0⟩, "task", "tk"⟩),
          true, true, true, true, true⟩) :=
  ⟨rfl, emptyFile_spec _ ⟨1, "h", ⟨3, 1, 0, 0⟩, "task", "tk"⟩
    rfl rfl rfl rfl rfl⟩

/-- Configuration with the two retry hint fields replaced. -/
def setRetry (rc rd : Int) (c : UploadConfigResp) : UploadConfigResp :=
  ⟨c.result, c.host, ⟨c.config.partSize, c.config.parallel, rc, rd⟩,
    c.taskId, c.tok⟩

/-- File inputs whose negotiated configuration, if decoded, carries
the replaced retry hint fields. -/
def setRetryInput (rc rd : Int) (inp : FileInput) : FileInput :=
  ⟨inp.statOk, inp.data, inp.readErrAfter,
    inp.negotiate.map (Option.map (setRetry rc rd)),
    inp.resumeOk, inp.openOk, inp.fin1, inp.fin2, inp.fin3⟩

/-- C9: the negotiated RetryCount and RetryDurationSeconds fields are
decoded but never read: replacing them by any values leaves the trace
of every file and of every whole run unchanged, so the server retry
hints never influence behaviour (retries stay unbounded and
undelayed). -/
theorem retryHints_spec (rc rd : Int) :
    (∀ inp : FileInput,
      processFile (setRetryInput rc rd inp) = processFile inp)
    ∧ ∀ (tok uid : String) (files : List FileInput),
        runMain tok uid (files.map (setRetryInput rc rd))
          = runMain tok uid files := by
  have hpf : ∀ inp : FileInput,
      processFile (setRetryInput rc rd inp) = processFile inp := by
    intro inp
    obtain ⟨st, da, re, ng, ro, oo, f1, f2, f3⟩ := inp
    cases ng with
    | none => rfl
    | some w =>
      cases w with
      | none => rfl
      | some c => rfl
  refine ⟨hpf, ?_⟩
  intro tok uid files
  rw [runMain, runMain]
  by_cases h : tok = "" ∨ uid = ""
  · rw [if_pos h, if_pos h]
  · rw [if_neg h, if_neg h, List.map_map,
      show processFile ∘ setRetryInput rc rd = processFile from funext hpf]

/-- Fragment production with a read error at call k yields at most
k - idx fragments when starting from index idx. -/
theorem readLoop_errAt_len (c k : Nat) : ∀ (idx : Nat) (d : Bytes),
    idx ≤ k → (readLoop c (some k) idx d).length ≤ k - idx := by
  intro idx d
  induction idx, d using readLoop.induct c (some k) with
  | case1 idx d h =>
    intro _
    rw [readLoop, if_pos h]
    simp
  | case2 idx d h ih =>
    intro hik
    rw [readLoop, if_neg h]
    have hne : k ≠ idx := by
      intro he
      exact h (Or.inl (congrArg some he))
    have := ih (by omega)
    simp only [List.length_cons]
    omega

/-- C5 (amended): a mid-file read failure that is not end-of-file is
not distinguished from end-of-file: it silently stops fragment
production (at most k fragments are produced when the read call k
fails), no IOError is surfaced, the session is not aborted, and the
orchestrator still performs the finalize handshake, announcing the
truncated fragment count. -/
theorem readError_spec (inp : FileInput) (cfg : UploadConfigResp) (k : Nat)
    (hstat : inp.statOk = true) (hneg : inp.negotiate = some (some cfg))
    (hres : inp.resumeOk = true) (hopen : inp.openOk = true)
    (herr : inp.readErrAfter = some k) :
    countP isRead (processFile inp) ≤ k
    ∧ Event.finComplete (countP isRead (processFile inp)) cfg.tok
        ∈ processFile inp := by
  have hframe := processFile_success inp cfg hstat hneg hres hopen
  rw [herr] at hframe
  have hcount : countP isRead (processFile inp) =
      (readLoop (cfg.config.partSize - 1).toNat (some k) 0 inp.data).length := by
    rw [hframe, countP_append, countP_preTrace_isRead,
      countP_finishUpload_isRead]
    omega
  constructor
  · rw [hcount]
    have := readLoop_errAt_len (cfg.config.partSize - 1).toNat k 0 inp.data
      (Nat.zero_le k)
    omega
  · rw [hcount, hframe]
    apply List.mem_append_right
    rw [finishUpload]
    exact List.mem_cons_self _ _

theorem readError_spec_witness :
    ((⟨true, [1, 2, 3, 4, 5, 6], some 1,
        some (some ⟨1, "h", ⟨3, 1, 0, 0⟩, "task", "tk"⟩),
        true, true, true, true, true⟩ : FileInput).readErrAfter = some 1)
    ∧ (countP isRead (processFile ⟨true, [1, 2, 3, 4, 5, 6], some 1,
          some (some ⟨1, "h", ⟨3, 1, 0, 0⟩, "task", "tk"⟩),
          true, true, true, true, true⟩) ≤ 1
      ∧ Event.finComplete (countP isRead (processFile ⟨true, [1, 2, 3, 4, 5, 6],
            some 1, some (some ⟨1, "h", ⟨3, 1, 0, 0⟩, "task", "tk"⟩),
            true, true, true, true, true⟩)) "tk"
          ∈ processFile ⟨true, [1, 2, 3, 4, 5, 6], some 1,
            some (some ⟨1, "h", ⟨3, 1, 0, 0⟩, "task", "tk"⟩),
            true, true, true, true, true⟩) :=
  ⟨rfl, readError_spec _ ⟨1, "h", ⟨3, 1, 0, 0⟩, "task", "tk"⟩ 1
    rfl rfl rfl rfl rfl⟩

/-- Concrete input refuting the claim that a non-end-of-file read
failure aborts the session without finalize: the file has 6 bytes, the
buffer size is PartSize-1 = 2, and the second read call fails. -/
def inpReadErr : FileInput :=
  ⟨true, [1, 2, 3, 4, 5, 6], some 1,
    some (some ⟨1, "h", ⟨3, 1, 0, 0⟩, "task", "tk"⟩),
    true, true, true, true, true⟩

theorem readError_counterexample :
    Event.finComplete 1 "tk" ∈ processFile inpReadErr
    ∧ countP isRead (processFile inpReadErr) = 1 := by
  have hfr : readLoop
      (((⟨1, "h", ⟨3, 1, 0, 0⟩, "task", "tk"⟩ : UploadConfigResp).config.partSize
        - 1).toNat)
      inpReadErr.readErrAfter 0 inpReadErr.data = [⟨[1, 2], 0⟩] := by
    rw [readLoop, readLoop]
    decide
  have htr : processFile inpReadErr =
      preTrace ⟨1, "h", ⟨3, 1, 0, 0⟩, "task", "tk"⟩ [⟨[1, 2], 0⟩]
        ++ finishUpload "tk" 1 "task" true true true := by
    rw [processFile_success inpReadErr ⟨1, "h", ⟨3, 1, 0, 0⟩, "task", "tk"⟩
      rfl rfl rfl rfl, hfr]
    rfl
  rw [htr]
  decide

/-- C6 (amended): when getUploadConfig itself fails, that is on
transport failure or a malformed response body, the pipeline fails at
the negotiate stage: no fragment is read, no worker is started, the
failure is reported, and the batch continues with the next file.  The
result code of a well-formed negotiate response body, however, is
never inspected, so a decoded non-success response does not stop the
pipeline. -/
theorem negotiateFailure_spec (inp : FileInput) (rest : List FileInput)
    (tok uid : String) (hstat : inp.statOk = true)
    (hneg : getUploadConfig inp.negotiate = none)
    (htok : ¬tok = "") (huid : ¬uid = "") :
    countP isRead (processFile inp) = 0
    ∧ countP isWorker (processFile inp) = 0
    ∧ Event.negotiateFail ∈ processFile inp
    ∧ runMain tok uid (inp :: rest)
        = processFile inp ++ runMain tok uid rest := by
  have hpf : processFile inp = [Event.printLocal, Event.statReq,
      Event.negotiateReq, Event.negotiateFail] := by
    rw [processFile, hstat, hneg]
    simp
  refine ⟨by rw [hpf]; rfl, by rw [hpf]; rfl, by rw [hpf]; simp, ?_⟩
  have hcond : ¬(tok = "" ∨ uid = "") := by
    intro hor
    rcases hor with hor | hor
    · exact htok hor
    · exact huid hor
  rw [runMain, runMain, if_neg hcond, if_neg hcond]
  simp

theorem negotiateFailure_spec_witness :
    ((⟨true, [1, 2], none, none, true, true, true, true, true⟩ : FileInput).statOk
        = true)
    ∧ getUploadConfig
        (⟨true, [1, 2], none, none, true, true, true, true, true⟩ : FileInput).negotiate
        = none
    ∧ ¬"t" = "" ∧ ¬"u" = ""
    ∧ (countP isRead (processFile ⟨true, [1, 2], none, none,
          true, true, true, true, true⟩) = 0
      ∧ countP isWorker (processFile ⟨true, [1, 2], none, none,
          true, true, true, true, true⟩) = 0
      ∧ Event.negotiateFail ∈ processFile ⟨true, [1, 2], none, none,
          true, true, true, true, true⟩
      ∧ runMain "t" "u" [⟨true, [1, 2], none, none,
            true, true, true, true, true⟩]
          = processFile ⟨true, [1, 2], none, none,
              true, true, true, true, true⟩ ++ runMain "t" "u" []) :=
  ⟨rfl, rfl, by decide, by decide,
    negotiateFailure_spec ⟨true, [1, 2], none, none, true, true, true, true,
      true⟩ [] "t" "u" rfl rfl (by decide) (by decide)⟩

/-- Concrete input refuting the claim that a decoded negotiate
response with a non-success result code stops the pipeline: the
response body decodes with result code 0, and the pipeline still
starts a worker and reads two fragments, reporting no negotiate
failure. -/
def inpBadResult : FileInput :=
  ⟨true, [9, 9, 9], none, some (some ⟨0, "h", ⟨3, 1, 0, 0⟩, "task", "tk"⟩),
    true, true, true, true, true⟩

theorem negotiateFailure_counterexample :
    Event.workerStart ∈ processFile inpBadResult
    ∧ countP isRead (processFile inpBadResult) = 2
    ∧ Event.negotiateFail ∉ processFile inpBadResult := by
  have hfr : readLoop
      (((⟨0, "h", ⟨3, 1, 0, 0⟩, "task", "tk"⟩ : UploadConfigResp).config.partSize
        - 1).toNat)
      inpBadResult.readErrAfter 0 inpBadResult.data
      = [⟨[9, 9], 0⟩, ⟨[9], 1⟩] := by
    rw [readLoop, readLoop, readLoop]
    decide
  have htr : processFile inpBadResult =
      preTrace ⟨0, "h", ⟨3, 1, 0, 0⟩, "task", "tk"⟩ [⟨[9, 9], 0⟩, ⟨[9], 1⟩]
        ++ finishUpload "tk" 2 "task" true true true := by
    rw [processFile_success inpBadResult ⟨0, "h", ⟨3, 1, 0, 0⟩, "task", "tk"⟩
      rfl rfl rfl rfl, hfr]
    rfl
  rw [htr]
  decide

theorem countP_preTrace_isFinStart (cfg : UploadConfigResp)
    (frags : List UploadPart) :
    countP isFinStart (preTrace cfg frags) = 0 := by
  simp only [preTrace, countP_append]
  rw [countP_replicate_none _ _ rfl,
    countP_map_none isFinStart (fun p => Event.readFrag p.count p.content.length)
      (fun _ => rfl),
    countP_map_none isFinStart (fun p => Event.ackFrag p.count p.content.length)
      (fun _ => rfl)]
  rfl

theorem not_mem_of_countP_zero (p : Event → Bool) (tr : List Event) (e : Event)
    (hp : p e = true) (h : countP p tr = 0) : e ∉ tr := by
  intro hmem
  have hnil : tr.filter p = [] := List.eq_nil_of_length_eq_zero h
  have : e ∈ tr.filter p := List.mem_filter.mpr ⟨hmem, hp⟩
  rw [hnil] at this
  simp at this

/-- C4: for a file whose pipeline reaches completion (stat, negotiate
decode, resume and open succeed; wg.Wait returns only once every
fragment is acknowledged), the finalize handshake is invoked exactly
once; the trace splits into a prefix holding every acknowledgment (one
per produced fragment) and no finalize call, and a suffix holding the
finalize calls and no acknowledgment, so finalize begins only after
the completion counter has reached zero; the suffix starts with
uploadComplete, followed in strict sequence by createVideo and then
uploadFinish, and a finalize call appears only when every earlier
finalize sub-step succeeded. -/
theorem finalize_spec (inp : FileInput) (cfg : UploadConfigResp)
    (hstat : inp.statOk = true) (hneg : inp.negotiate = some (some cfg))
    (hres : inp.resumeOk = true) (hopen : inp.openOk = true) :
    countP isFinStart (processFile inp) = 1
    ∧ (∃ pre post, processFile inp = pre ++ post
        ∧ countP isFinStep pre = 0
        ∧ countP isAck post = 0
        ∧ countP isAck pre = countP isRead (processFile inp)
        ∧ post.head? = some (Event.finComplete
            (countP isRead (processFile inp)) cfg.tok)
        ∧ (inp.fin1 = true → post[1]? = some (Event.finCreateVideo cfg.taskId))
        ∧ (inp.fin1 = true → inp.fin2 = true →
            post[2]? = some (Event.finUploadFinish cfg.taskId)))
    ∧ (∀ t, Event.finCreateVideo t ∈ processFile inp → inp.fin1 = true)
    ∧ (∀ t, Event.finUploadFinish t ∈ processFile inp →
        inp.fin1 = true ∧ inp.fin2 = true) := by
  have hframe := processFile_success inp cfg hstat hneg hres hopen
  have hcount : countP isRead (processFile inp) =
      (readLoop (cfg.config.partSize - 1).toNat inp.readErrAfter 0
        inp.data).length := by
    rw [hframe, countP_append, countP_preTrace_isRead,
      countP_finishUpload_isRead]
    omega
  refine ⟨?_, ?_, ?_, ?_⟩
  · rw [hframe, countP_append, countP_preTrace_isFinStart,
      countP_finishUpload_isFinStart]
  · refine ⟨_, _, hframe, countP_preTrace_isFinStep _ _,
      countP_finishUpload_isAck _ _ _ _ _ _, ?_, ?_, ?_, ?_⟩
    · rw [countP_preTrace_isAck, hcount]
    · rw [hcount]
      rfl
    · intro h1
      rw [h1]
      simp [finishUpload]
    · intro h1 h2
      rw [h1, h2]
      simp [finishUpload]
  · intro t hmem
    rw [hframe] at hmem
    rcases List.mem_append.mp hmem with hmem | hmem
    · exact absurd hmem (not_mem_of_countP_zero isFinStep _ _ rfl
        (countP_preTrace_isFinStep cfg _))
    · cases h1 : inp.fin1 with
      | true => rfl
      | false =>
        rw [h1] at hmem
        simp [finishUpload] at hmem
  · intro t hmem
    rw [hframe] at hmem
    rcases List.mem_append.mp hmem with hmem | hmem
    · exact absurd hmem (not_mem_of_countP_zero isFinStep _ _ rfl
        (countP_preTrace_isFinStep cfg _))
    · cases h1 : inp.fin1 with
      | false =>
        rw [h1] at hmem
        simp [finishUpload] at hmem
      | true =>
        cases h2 : inp.fin2 with
        | false =>
          rw [h1, h2] at hmem
          simp [finishUpload] at hmem
        | true => exact ⟨rfl, rfl⟩

/-- Concrete all-success input used to witness the finalize and
scenario claims at small scale. -/
def inpOk : FileInput :=
  ⟨true, [5, 6, 7], none, some (some ⟨1, "h", ⟨3, 2, 0, 0⟩, "task", "tk"⟩),
    true, true, true, true, true⟩

theorem finalize_spec_witness :
    (inpOk.statOk = true
      ∧ inpOk.negotiate
          = some (some ⟨1, "h", ⟨3, 2, 0, 0⟩, "task", "tk"⟩)
      ∧ inpOk.resumeOk = true ∧ inpOk.openOk = true)
    ∧ (countP isFinStart (processFile inpOk) = 1
    ∧ (∃ pre post, processFile inpOk = pre ++ post
        ∧ countP isFinStep pre = 0
        ∧ countP isAck post = 0
        ∧ countP isAck pre = countP isRead (processFile inpOk)
        ∧ post.head? = some (Event.finComplete
            (countP isRead (processFile inpOk))
            (⟨1, "h", ⟨3, 2, 0, 0⟩, "task", "tk"⟩ : UploadConfigResp).tok)
        ∧ (inpOk.fin1 = true → post[1]? = some (Event.finCreateVideo
            (⟨1, "h", ⟨3, 2, 0, 0⟩, "task", "tk"⟩ : UploadConfigResp).taskId))
        ∧ (inpOk.fin1 = true → inpOk.fin2 = true →
            post[2]? = some (Event.finUploadFinish
              (⟨1, "h", ⟨3, 2, 0, 0⟩, "task", "tk"⟩ : UploadConfigResp).taskId)))
    ∧ (∀ t, Event.finCreateVideo t ∈ processFile inpOk → inpOk.fin1 = true)
    ∧ (∀ t, Event.finUploadFinish t ∈ processFile inpOk →
        inpOk.fin1 = true ∧ inpOk.fin2 = true)) :=
  ⟨⟨rfl, rfl, rfl, rfl⟩,
    finalize_spec inpOk ⟨1, "h", ⟨3, 2, 0, 0⟩, "task", "tk"⟩ rfl rfl rfl rfl⟩

theorem fragSizes_4MB :
    fragSizes 4194303 10485760 = [4194303, 4194303, 2097154] := by
  rw [fragSizes]
  norm_num
  rw [fragSizes]
  norm_num
  rw [fragSizes]
  norm_num

/-- Shared computation for the 10 MB scenario: with negotiated
partSize 4194304 the read buffer has 4194303 bytes, so a
10485760-byte file is split into chunks of 4194303, 4194303 and
2097154 bytes. -/
theorem pipeline10MB_lens (inp : FileInput) (cfg : UploadConfigResp)
    (hstat : inp.statOk = true) (hneg : inp.negotiate = some (some cfg))
    (hres : inp.resumeOk = true) (hopen : inp.openOk = true)
    (herr : inp.readErrAfter = none)
    (hps : cfg.config.partSize = 4194304)
    (hlen : inp.data.length = 10485760) :
    readLens (processFile inp) = [4194303, 4194303, 2097154] := by
  have hframe := processFile_success inp cfg hstat hneg hres hopen
  rw [herr, hps, show ((4194304 : Int) - 1).toNat = 4194303 by decide]
    at hframe
  have hlens : (readLoop 4194303 none 0 inp.data).map
      (fun p => p.content.length) = [4194303, 4194303, 2097154] := by
    rw [readLoop_lens, hlen, fragSizes_4MB]
  rw [hframe, readLens_append, readLens_preTrace, readLens_finishUpload,
    hlens, List.append_nil]

/-- C7 (amended): for a 10485760-byte file with negotiated partSize
4194304 (4 MB) and parallel 3, the pipeline produces exactly 3
fragments, of sizes 4194303, 4194303 and 2097154 bytes: the read
buffer is PartSize-1 bytes, one byte short of the negotiated fragment
size, so the sizes are not 4194304, 4194304 and 2097152.  Three
workers are started, the finalize handshake is invoked exactly once
after all acknowledgments, and the total of the reported progress
increments equals 10485760 bytes. -/
theorem scenario10MB_spec (inp : FileInput) (cfg : UploadConfigResp)
    (hstat : inp.statOk = true) (hneg : inp.negotiate = some (some cfg))
    (hres : inp.resumeOk = true) (hopen : inp.openOk = true)
    (herr : inp.readErrAfter = none)
    (hps : cfg.config.partSize = 4194304)
    (hpar : cfg.config.parallel = 3)
    (hlen : inp.data.length = 10485760) :
    readLens (processFile inp) = [4194303, 4194303, 2097154]
    ∧ countP isRead (processFile inp) = 3
    ∧ countP isWorker (processFile inp) = 3
    ∧ countP isFinStart (processFile inp) = 1
    ∧ ackTotal (processFile inp) = 10485760 := by
  have hframe := processFile_success inp cfg hstat hneg hres hopen
  rw [herr, hps, show ((4194304 : Int) - 1).toNat = 4194303 by decide]
    at hframe
  have hlens : (readLoop 4194303 none 0 inp.data).map
      (fun p => p.content.length) = [4194303, 4194303, 2097154] := by
    rw [readLoop_lens, hlen, fragSizes_4MB]
  have hlen3 : (readLoop 4194303 none 0 inp.data).length = 3 := by
    have := congrArg List.length hlens
    simpa using this
  refine ⟨pipeline10MB_lens inp cfg hstat hneg hres hopen herr hps hlen,
    ?_, ?_, ?_, ?_⟩
  · rw [hframe, countP_append, countP_preTrace_isRead,
      countP_finishUpload_isRead, hlen3]
  · rw [hframe, countP_append, countP_preTrace_isWorker,
      countP_finishUpload_isWorker, hpar]
    decide
  · rw [hframe, countP_append, countP_preTrace_isFinStart,
      countP_finishUpload_isFinStart]
  · rw [hframe, ackTotal_append, ackTotal_preTrace, ackTotal_finishUpload,
      hlens]
    decide

/-- File input for the 10 MB scenario: 10485760 zero bytes, negotiated
partSize 4194304 and parallel 3, every exchange succeeding. -/
def inp10MB : FileInput :=
  ⟨true, List.replicate 10485760 0, none,
    some (some ⟨1, "h", ⟨4194304, 3, 0, 0⟩, "task", "tk"⟩),
    true, true, true, true, true⟩

theorem scenario10MB_spec_witness :
    (inp10MB.statOk = true
      ∧ inp10MB.negotiate
          = some (some ⟨1, "h", ⟨4194304, 3, 0, 0⟩, "task", "tk"⟩)
      ∧ inp10MB.resumeOk = true ∧ inp10MB.openOk = true
      ∧ inp10MB.readErrAfter = none
      ∧ (⟨1, "h", ⟨4194304, 3, 0, 0⟩, "task",
          "tk"⟩ : UploadConfigResp).config.partSize = 4194304
      ∧ (⟨1, "h", ⟨4194304, 3, 0, 0⟩, "task",
          "tk"⟩ : UploadConfigResp).config.parallel = 3
      ∧ inp10MB.data.length = 10485760)
    ∧ (readLens (processFile inp10MB) = [4194303, 4194303, 2097154]
      ∧ countP isRead (processFile inp10MB) = 3
      ∧ countP isWorker (processFile inp10MB) = 3
      ∧ countP isFinStart (processFile inp10MB) = 1
      ∧ ackTotal (processFile inp10MB) = 10485760) :=
  ⟨⟨rfl, rfl, rfl, rfl, rfl, rfl, rfl, List.length_replicate 10485760 0⟩,
    scenario10MB_spec inp10MB ⟨1, "h", ⟨4194304, 3, 0, 0⟩, "task", "tk"⟩
      rfl rfl rfl rfl rfl rfl rfl (List.length_replicate 10485760 0)⟩

theorem scenario10MB_counterexample :
    readLens (processFile inp10MB) = [4194303, 4194303, 2097154]
    ∧ readLens (processFile inp10MB) ≠ [4194304, 4194304, 2097152] := by
  have hl := pipeline10MB_lens inp10MB
    ⟨1, "h", ⟨4194304, 3, 0, 0⟩, "task", "tk"⟩
    rfl rfl rfl rfl rfl rfl (List.length_replicate 10485760 0)
  refine ⟨hl, ?_⟩
  rw [hl]
  decide

end Acfun
